import Mathlib

/-!
Shallow embedding of the topic actor of `via.go` (xi/via), a per-topic
publish/subscribe broker.  The actor owns one topic's state (subscriber
channel set, optional bounded history, last assigned id, persisted file)
and processes commands one at a time in a loop:

  Subscribe / Unsubscribe / Publish (POST) / Compact (PUT) / ClearHistory (DELETE).

Each `case` arm of the Go `select` in `Topic.run` is translated into a Lean
function on `TopicState`.  Go `int` message ids become `Int`; the opaque
`[]byte` payload becomes `String`; the Go channel set `map[chan Msg]bool`
becomes a `Finset Nat` of handle identifiers; the persisted file is a
`stored : Option (List Msg)` field (`none` = file absent).  Closing a Go
channel that is already closed is a run-time panic; the model tracks closed
handles in `closed` and records such a panic in the sticky `crashed` flag,
after which the actor makes no further transitions.
-/

namespace Via

/-- Go struct `Msg`: a message with an id and an opaque payload. -/
structure Msg where
  id : Int
  data : String
deriving DecidableEq

/-- The state owned by one topic actor (Go struct `Topic`, in-memory fields
plus the persisted file content it exclusively owns). -/
structure TopicState where
  /-- live subscriber handles (Go `channels map[chan Msg]bool`) -/
  channels : Finset Nat
  /-- handles that have been closed (for detecting close-after-close) -/
  closed : Finset Nat
  /-- Go `hasHistory`, fixed from the key namespace at creation -/
  hasHistory : Bool
  /-- Go `history []Msg`, oldest first -/
  history : List Msg
  /-- Go `lastId int` -/
  lastId : Int
  /-- content of the persisted history file, `none` when absent -/
  stored : Option (List Msg)
  /-- true once the actor performed an illegal close (Go run-time panic) -/
  crashed : Bool
deriving DecidableEq

/-- The commands a topic actor can receive, one per channel of the Go
`select` in `Topic.run`. -/
inductive Cmd where
  | subscribe (handle : Nat) (lastSeenId : Int)
  | unsubscribe (handle : Nat)
  | publish (data : String)
  | put (m : Msg)
  | del
deriving DecidableEq

/-- The code's `maxHistorySize` global (never changed by a flag). -/
def maxHistorySize : Nat := 100

/-- A freshly constructed topic (Go `getTopic`): empty channel set, empty
history, `lastId = 0`; `file` is the current content of its history file. -/
def initialTopic (hh : Bool) (file : Option (List Msg)) : TopicState :=
  { channels := ∅, closed := ∅, hasHistory := hh, history := [], lastId := 0,
    stored := file, crashed := false }

/-- Go `Topic.restoreHistory`: load the persisted file if present; set
`lastId` to the last entry's id when the loaded history is nonempty. -/
def restoreHistory (s : TopicState) : TopicState :=
  match s.stored with
  | none => s
  | some h =>
      { s with history := h,
               lastId := match h.getLast? with
                         | none => s.lastId
                         | some m => m.id }

/-- The state in which the actor loop starts (prelude of Go `Topic.run`):
history is restored only when the topic is history-enabled. -/
def startTopic (hh : Bool) (file : Option (List Msg)) : TopicState :=
  if hh then restoreHistory (initialTopic hh file) else initialTopic hh file

/-- The replay a new subscriber receives (Go: `for _, msg := range
topic.history { if msg.Id > sub.lastId { sub.ch <- msg } }`). -/
def replay (history : List Msg) (lastSeenId : Int) : List Msg :=
  history.filter (fun m => lastSeenId < m.id)

/-- The `subChan` arm: deliver the qualifying history to the new handle,
then add the handle to the live set.  Returns the new state and the list of
messages replayed to the handle, in delivery order. -/
def subscribeStep (s : TopicState) (handle : Nat) (lastSeenId : Int) :
    TopicState × List Msg :=
  ({ s with channels := insert handle s.channels }, replay s.history lastSeenId)

/-- The `unsubChan` arm (Go: `close(ch); delete(topic.channels, ch)`).
Closing an already-closed handle is a Go run-time panic, recorded in
`crashed`. -/
def unsubscribeStep (s : TopicState) (handle : Nat) : TopicState :=
  if handle ∈ s.closed then { s with crashed := true }
  else { s with closed := insert handle s.closed,
                channels := s.channels.erase handle }

/-- Go: `for len(topic.history) > maxHistorySize { topic.history =
topic.history[1:] }` — drop entries from the front while the length exceeds
the bound. -/
def evictFront (maxH : Nat) : List Msg → List Msg
  | [] => []
  | m :: rest =>
      if (m :: rest).length > maxH then evictFront maxH rest else m :: rest

/-- Result of the `postChan` arm: the new state, the value sent back on the
producer's channel (`none` when the channel is closed without a send), the
published message, and the handles the message is fanned out to. -/
structure PubResult where
  state : TopicState
  remaining : Option Int
  msg : Msg
  delivered : Finset Nat
deriving DecidableEq

/-- The `postChan` arm (Publish): assign `id = lastId + 1`; when history is
enabled append, evict from the front, persist, and answer the producer with
`maxHistorySize - len(history)`; finally fan the message out to every live
subscriber handle. -/
def publishStep (maxH : Nat) (s : TopicState) (data : String) : PubResult :=
  let newId := s.lastId + 1
  let msg : Msg := ⟨newId, data⟩
  if s.hasHistory then
    let h := evictFront maxH (s.history ++ [msg])
    { state := { s with lastId := newId, history := h, stored := some h },
      remaining := some ((maxH : Int) - (h.length : Int)),
      msg := msg,
      delivered := s.channels }
  else
    { state := { s with lastId := newId },
      remaining := none,
      msg := msg,
      delivered := s.channels }

/-- The guard of the `putChan` arm (Go: `len(topic.history) > 0 && msg.Id <
topic.history[0].Id`): a stale compaction request that is skipped. -/
def putStale (s : TopicState) (m : Msg) : Bool :=
  match s.history with
  | [] => false
  | first :: _ => decide (m.id < first.id)

/-- The `putChan` arm (Compact): unless stale, replace the history by the
injected message followed by the retained messages with strictly larger id,
persist, and raise `lastId` to the injected id if larger. -/
def putStep (s : TopicState) (m : Msg) : TopicState :=
  if putStale s m then s
  else
    let h := m :: s.history.filter (fun x => m.id < x.id)
    { s with history := h, stored := some h,
             lastId := if s.lastId < m.id then m.id else s.lastId }

/-- The `delChan` arm (ClearHistory): empty the history, reset `lastId` to
0, delete the persisted file. -/
def delStep (s : TopicState) : TopicState :=
  { s with history := [], lastId := 0, stored := none }

/-- One command processed by the actor loop body.  A crashed actor (dead
goroutine) makes no further transitions. -/
def step (maxH : Nat) (s : TopicState) : Cmd → TopicState
  | .subscribe h c => if s.crashed then s else (subscribeStep s h c).1
  | .unsubscribe h => if s.crashed then s else unsubscribeStep s h
  | .publish d => if s.crashed then s else (publishStep maxH s d).state
  | .put m => if s.crashed then s else putStep s m
  | .del => if s.crashed then s else delStep s

/-- A sequence of commands processed by the actor loop. -/
def run (maxH : Nat) (s : TopicState) (cs : List Cmd) : TopicState :=
  cs.foldl (step maxH) s

/-- True exactly when processing `c` in state `s` reaches a `continue`
that jumps back to the top of the loop, skipping the cleanup check: this
happens only for a stale Compact. -/
def skipsCleanup (s : TopicState) (c : Cmd) : Bool :=
  match c with
  | .put m => putStale s m
  | _ => false

/-- A topic actor together with its presence in the registry map. -/
structure LoopState where
  topic : TopicState
  inRegistry : Bool
deriving DecidableEq

/-- One full iteration of the actor loop: process the command, then run
`topic.cleanup` (deregister and stop when no subscriber remains) — except
that the stale-Compact `continue` and a crash skip the cleanup check. -/
def loopStep (maxH : Nat) (ls : LoopState) (c : Cmd) : LoopState :=
  if ls.inRegistry = false then ls
  else
    let s' := step maxH ls.topic c
    if s'.crashed then { topic := s', inRegistry := ls.inRegistry }
    else if skipsCleanup ls.topic c then { topic := s', inRegistry := true }
    else if s'.channels = ∅ then { topic := s', inRegistry := false }
    else { topic := s', inRegistry := true }

/-- The messages created (published or injected) when `s` processes `c`:
a Publish creates the freshly stamped message, an accepted Compact injects
the caller-supplied message. -/
def createdMsgs (maxH : Nat) (s : TopicState) : Cmd → List Msg
  | .publish d => if s.crashed then [] else [(publishStep maxH s d).msg]
  | .put m => if s.crashed then [] else if putStale s m then [] else [m]
  | _ => []

/-- All messages created along a command sequence, in creation order. -/
def createdTrace (maxH : Nat) (s : TopicState) : List Cmd → List Msg
  | [] => []
  | c :: cs => createdMsgs maxH s c ++ createdTrace maxH (step maxH s c) cs

/-- Strictly increasing by id, the spec's ordering invariant on `history`. -/
abbrev Sorted (l : List Msg) : Prop :=
  l.Pairwise (fun a b => a.id < b.id)

/-- The auxiliary history invariant carried through the actor loop: the
history is strictly increasing by id, bounded, and every retained id is at
most `lastId`. -/
def HistAux (maxH : Nat) (s : TopicState) : Prop :=
  Sorted s.history ∧ s.history.length ≤ maxH ∧ ∀ m ∈ s.history, m.id ≤ s.lastId

theorem evictFront_eq_drop (maxH : Nat) (l : List Msg) :
    evictFront maxH l = l.drop (l.length - maxH) := by
  induction l with
  | nil => simp [evictFront]
  | cons m rest ih =>
      simp only [evictFront]
      by_cases hlen : (m :: rest).length > maxH
      · rw [if_pos hlen, ih]
        have h1 : (m :: rest).length - maxH = (rest.length - maxH) + 1 := by
          simp only [List.length_cons] at hlen ⊢
          omega
        rw [h1, List.drop_succ_cons]
      · rw [if_neg hlen]
        have h1 : (m :: rest).length - maxH = 0 := by
          simp only [List.length_cons] at hlen ⊢
          omega
        rw [h1, List.drop_zero]

theorem evictFront_suffix (maxH : Nat) (l : List Msg) : evictFront maxH l <:+ l := by
  rw [evictFront_eq_drop]
  exact List.drop_suffix _ _

theorem evictFront_length (maxH : Nat) (l : List Msg) :
    (evictFront maxH l).length ≤ maxH := by
  rw [evictFront_eq_drop, List.length_drop]
  omega

theorem evictFront_ne_nil (maxH : Nat) (l : List Msg) (hm : 1 ≤ maxH) (hl : l ≠ []) :
    evictFront maxH l ≠ [] := by
  have hlen : 0 < l.length := List.length_pos.mpr hl
  intro hcon
  have h2 : (evictFront maxH l).length = 0 := by rw [hcon]; rfl
  rw [evictFront_eq_drop, List.length_drop] at h2
  omega

theorem evictFront_getLast (maxH : Nat) (l : List Msg) (hm : 1 ≤ maxH) (hl : l ≠ []) :
    (evictFront maxH l).getLast? = l.getLast? := by
  obtain ⟨t, ht⟩ := evictFront_suffix maxH l
  conv_rhs => rw [← ht]
  rw [List.getLast?_append_of_ne_nil _ (evictFront_ne_nil maxH l hm hl)]

theorem evictFront_sorted (maxH : Nat) (l : List Msg) (h : Sorted l) :
    Sorted (evictFront maxH l) :=
  List.Pairwise.sublist ((evictFront_suffix maxH l).sublist) h

theorem mem_evictFront (maxH : Nat) (l : List Msg) (m : Msg)
    (h : m ∈ evictFront maxH l) : m ∈ l :=
  ((evictFront_suffix maxH l).sublist).subset h

theorem histAux_subscribe (maxH : Nat) (s : TopicState) (hd : Nat) (cur : Int)
    (h : HistAux maxH s) : HistAux maxH (subscribeStep s hd cur).1 :=
  h

theorem histAux_unsubscribe (maxH : Nat) (s : TopicState) (hd : Nat)
    (h : HistAux maxH s) : HistAux maxH (unsubscribeStep s hd) := by
  unfold unsubscribeStep
  split
  · exact h
  · exact h

theorem histAux_publish (maxH : Nat) (s : TopicState) (d : String)
    (h : HistAux maxH s) : HistAux maxH (publishStep maxH s d).state := by
  obtain ⟨hsort, hlen, hbound⟩ := h
  unfold publishStep
  by_cases hh : s.hasHistory = true
  · simp only [hh, if_true]
    refine ⟨?_, evictFront_length _ _, ?_⟩
    · apply evictFront_sorted
      rw [Sorted, List.pairwise_append]
      refine ⟨hsort, List.pairwise_singleton _ _, ?_⟩
      intro a ha b hb
      rw [List.mem_singleton] at hb
      subst hb
      exact lt_of_le_of_lt (hbound a ha) (show s.lastId < s.lastId + 1 by omega)
    · intro m hm
      rcases List.mem_append.mp (mem_evictFront _ _ _ hm) with h1 | h2
      · exact le_trans (hbound m h1) (show s.lastId ≤ s.lastId + 1 by omega)
      · rw [List.mem_singleton] at h2
        subst h2
        exact le_refl _
  · simp only [hh, if_false]
    refine ⟨hsort, hlen, ?_⟩
    intro m hm
    exact le_trans (hbound m hm) (show s.lastId ≤ s.lastId + 1 by omega)

theorem histAux_put (maxH : Nat) (hm : 1 ≤ maxH) (s : TopicState) (m : Msg)
    (h : HistAux maxH s) : HistAux maxH (putStep s m) := by
  obtain ⟨hsort, hlen, hbound⟩ := h
  unfold putStep
  by_cases hst : putStale s m = true
  · rw [if_pos hst]
    exact ⟨hsort, hlen, hbound⟩
  · rw [if_neg hst]
    refine ⟨?_, ?_, ?_⟩
    · show Sorted (m :: s.history.filter (fun x => m.id < x.id))
      rw [Sorted, List.pairwise_cons]
      refine ⟨?_, hsort.filter _⟩
      intro x hx
      exact of_decide_eq_true (List.mem_filter.mp hx).2
    · show (m :: s.history.filter (fun x => m.id < x.id)).length ≤ maxH
      rcases hhist : s.history with _ | ⟨first, rest⟩
      · simp
        omega
      · have hfirst : ¬ (m.id < first.id) := by
          intro hcon
          apply hst
          rw [putStale, hhist]
          exact decide_eq_true hcon
        have hfd : ¬ (decide (m.id < first.id) = true) := by
          simpa using hfirst
        rw [List.filter_cons, if_neg hfd, List.length_cons]
        have h1 : (rest.filter (fun x => m.id < x.id)).length ≤ rest.length :=
          List.length_filter_le _ _
        rw [hhist] at hlen
        simp only [List.length_cons] at hlen
        omega
    · show ∀ x ∈ m :: s.history.filter (fun y => m.id < y.id),
        x.id ≤ (if s.lastId < m.id then m.id else s.lastId)
      intro x hx
      rcases List.mem_cons.mp hx with h1 | h2
      · subst h1
        split <;> omega
      · have := hbound x (List.mem_of_mem_filter h2)
        split <;> omega

theorem histAux_del (maxH : Nat) (s : TopicState)
    (_h : HistAux maxH s) : HistAux maxH (delStep s) := by
  refine ⟨List.Pairwise.nil, ?_, ?_⟩
  · simp [delStep]
  · intro m hm
    simp [delStep] at hm

theorem histAux_step (maxH : Nat) (hm : 1 ≤ maxH) (s : TopicState) (c : Cmd)
    (h : HistAux maxH s) : HistAux maxH (step maxH s c) := by
  cases c with
  | subscribe hd cur =>
      simp only [step]
      split
      · exact h
      · exact histAux_subscribe maxH s hd cur h
  | unsubscribe hd =>
      simp only [step]
      split
      · exact h
      · exact histAux_unsubscribe maxH s hd h
  | publish d =>
      simp only [step]
      split
      · exact h
      · exact histAux_publish maxH s d h
  | put m =>
      simp only [step]
      split
      · exact h
      · exact histAux_put maxH hm s m h
  | del =>
      simp only [step]
      split
      · exact h
      · exact histAux_del maxH s h

theorem publishStep_pos (maxH : Nat) (s : TopicState) (d : String) (hh : s.hasHistory = true) :
    publishStep maxH s d =
      PubResult.mk
        { s with lastId := s.lastId + 1,
                 history := evictFront maxH (s.history ++ [Msg.mk (s.lastId + 1) d]),
                 stored := some (evictFront maxH (s.history ++ [Msg.mk (s.lastId + 1) d])) }
        (some ((maxH : Int) -
          ((evictFront maxH (s.history ++ [Msg.mk (s.lastId + 1) d])).length : Int)))
        (Msg.mk (s.lastId + 1) d)
        s.channels := by
  unfold publishStep
  rw [if_pos hh]

theorem publishStep_neg (maxH : Nat) (s : TopicState) (d : String) (hh : s.hasHistory = false) :
    publishStep maxH s d =
      PubResult.mk { s with lastId := s.lastId + 1 } none (Msg.mk (s.lastId + 1) d)
        s.channels := by
  unfold publishStep
  rw [if_neg (by rw [hh]; exact Bool.false_ne_true)]

theorem publishStep_msg (maxH : Nat) (s : TopicState) (d : String) :
    (publishStep maxH s d).msg = Msg.mk (s.lastId + 1) d := by
  by_cases hh : s.hasHistory = true
  · rw [publishStep_pos maxH s d hh]
  · rw [publishStep_neg maxH s d (by revert hh; cases s.hasHistory <;> simp)]

theorem histAux_run (maxH : Nat) (hm : 1 ≤ maxH) (s : TopicState) (cs : List Cmd)
    (h : HistAux maxH s) : HistAux maxH (run maxH s cs) := by
  induction cs generalizing s with
  | nil => exact h
  | cons c rest ih => exact ih _ (histAux_step maxH hm s c h)

theorem histAux_initial (maxH : Nat) (hh : Bool) : HistAux maxH (initialTopic hh none) :=
  ⟨List.Pairwise.nil, by simp [initialTopic], by intro m hm; simp [initialTopic] at hm⟩

/-- The invariant of Publish-only executions: consecutive ids in the
history, the last retained id equals `lastId`, and a history-disabled topic
retains nothing. -/
def PubInv (s : TopicState) : Prop :=
  s.history.Chain' (fun a b => b.id = a.id + 1) ∧
  (∀ last, s.history.getLast? = some last → last.id = s.lastId) ∧
  (s.hasHistory = false → s.history = [])

theorem pubInv_publish (maxH : Nat) (hm : 1 ≤ maxH) (s : TopicState) (d : String)
    (h : PubInv s) : PubInv (publishStep maxH s d).state := by
  obtain ⟨hchain, hlast, hdis⟩ := h
  unfold publishStep
  by_cases hh : s.hasHistory = true
  · simp only [hh, if_true]
    have hchain2 : (s.history ++ [Msg.mk (s.lastId + 1) d]).Chain' (fun a b => b.id = a.id + 1) := by
      rw [List.chain'_append]
      refine ⟨hchain, List.chain'_singleton _, ?_⟩
      intro x hx y hy
      simp only [List.head?_cons, Option.mem_def, Option.some.injEq] at hy
      subst hy
      rw [hlast x hx]
    have hne : s.history ++ [Msg.mk (s.lastId + 1) d] ≠ [] := by
      simp
    refine ⟨?_, ?_, ?_⟩
    · exact (hchain2.suffix (evictFront_suffix maxH _))
    · intro last hl
      rw [evictFront_getLast maxH _ hm hne,
        List.getLast?_append_of_ne_nil _ (by simp : ([Msg.mk (s.lastId + 1) d] : List Msg) ≠ [])] at hl
      simp only [List.getLast?_singleton, Option.some.injEq] at hl
      subst hl
      rfl
    · intro hcon
      simp at hcon
  · simp only [hh, if_false]
    have hempty : s.history = [] := hdis (by revert hh; cases s.hasHistory <;> simp)
    refine ⟨?_, ?_, fun _ => hempty⟩
    · rw [hempty]
      exact List.chain'_nil
    · intro last hl
      rw [hempty] at hl
      cases hl

theorem pubInv_step_publish (maxH : Nat) (hm : 1 ≤ maxH) (s : TopicState) (d : String)
    (h : PubInv s) : PubInv (step maxH s (Cmd.publish d)) := by
  simp only [step]
  split
  · exact h
  · exact pubInv_publish maxH hm s d h

theorem pubInv_run (maxH : Nat) (hm : 1 ≤ maxH) (s : TopicState) (cs : List Cmd)
    (hcs : ∀ c ∈ cs, ∃ d, c = Cmd.publish d) (h : PubInv s) :
    PubInv (run maxH s cs) := by
  induction cs generalizing s with
  | nil => exact h
  | cons c rest ih =>
      obtain ⟨d, rfl⟩ := hcs c (List.mem_cons_self c rest)
      exact ih _ (fun c2 hc2 => hcs c2 (List.mem_cons_of_mem _ hc2))
        (pubInv_step_publish maxH hm s d h)

theorem pubInv_initial (hh : Bool) : PubInv (initialTopic hh none) := by
  refine ⟨List.chain'_nil, ?_, fun _ => rfl⟩
  intro last hl
  cases hl

theorem lastId_mono_step (maxH : Nat) (s : TopicState) (c : Cmd) (hc : c ≠ Cmd.del) :
    s.lastId ≤ (step maxH s c).lastId := by
  cases c with
  | subscribe hd cur =>
      simp only [step]
      split
      · exact le_refl _
      · exact le_refl _
  | unsubscribe hd =>
      simp only [step]
      split
      · exact le_refl _
      · unfold unsubscribeStep
        split
        · exact le_refl _
        · exact le_refl _
  | publish d =>
      simp only [step]
      split
      · exact le_refl _
      · unfold publishStep
        split
        · show s.lastId ≤ s.lastId + 1
          omega
        · show s.lastId ≤ s.lastId + 1
          omega
  | put m =>
      simp only [step]
      split
      · exact le_refl _
      · unfold putStep
        split
        · exact le_refl _
        · show s.lastId ≤ (if s.lastId < m.id then m.id else s.lastId)
          split <;> omega
  | del => exact absurd rfl hc

theorem lastId_mono_run (maxH : Nat) (s : TopicState) (cs : List Cmd)
    (hcs : ∀ c ∈ cs, c ≠ Cmd.del) : s.lastId ≤ (run maxH s cs).lastId := by
  induction cs generalizing s with
  | nil => exact le_refl _
  | cons c rest ih =>
      exact le_trans (lastId_mono_step maxH s c (hcs c (List.mem_cons_self c rest)))
        (ih _ (fun c2 hc2 => hcs c2 (List.mem_cons_of_mem _ hc2)))

theorem created_le_step (maxH : Nat) (s : TopicState) (c : Cmd) :
    ∀ m ∈ createdMsgs maxH s c, m.id ≤ (step maxH s c).lastId := by
  cases c with
  | subscribe hd cur => intro m hm; cases hm
  | unsubscribe hd => intro m hm; cases hm
  | publish d =>
      simp only [createdMsgs, step]
      split
      · intro m hm; cases hm
      · intro m hm
        rw [List.mem_singleton] at hm
        subst hm
        unfold publishStep
        split
        · exact le_refl _
        · exact le_refl _
  | put m0 =>
      simp only [createdMsgs, step]
      split
      · intro m hm; cases hm
      · split
        · intro m hm; cases hm
        · intro m hm
          rw [List.mem_singleton] at hm
          subst hm
          unfold putStep
          rw [if_neg (by simp_all)]
          show m.id ≤ (if s.lastId < m.id then m.id else s.lastId)
          split <;> omega
  | del => intro m hm; cases hm

theorem createdTrace_le_run (maxH : Nat) (s : TopicState) (cs : List Cmd)
    (hcs : ∀ c ∈ cs, c ≠ Cmd.del) :
    ∀ m ∈ createdTrace maxH s cs, m.id ≤ (run maxH s cs).lastId := by
  induction cs generalizing s with
  | nil => intro m hm; cases hm
  | cons c rest ih =>
      intro m hm
      rw [createdTrace] at hm
      rcases List.mem_append.mp hm with h1 | h2
      · exact le_trans (created_le_step maxH s c m h1)
          (lastId_mono_run maxH _ rest (fun c2 hc2 => hcs c2 (List.mem_cons_of_mem _ hc2)))
      · exact ih _ (fun c2 hc2 => hcs c2 (List.mem_cons_of_mem _ hc2)) m h2

theorem createdTrace_bounds (maxH : Nat) (s : TopicState) (cs : List Cmd)
    (hcs : ∀ c ∈ cs, (∀ m, c ≠ Cmd.put m) ∧ c ≠ Cmd.del) :
    (∀ m ∈ createdTrace maxH s cs, s.lastId < m.id) ∧
    (createdTrace maxH s cs).Pairwise (fun a b => a.id < b.id) := by
  induction cs generalizing s with
  | nil => exact ⟨fun m hm => absurd hm (List.not_mem_nil m), List.Pairwise.nil⟩
  | cons c rest ih =>
      have hrest : ∀ c2 ∈ rest, (∀ m, c2 ≠ Cmd.put m) ∧ c2 ≠ Cmd.del :=
        fun c2 hc2 => hcs c2 (List.mem_cons_of_mem _ hc2)
      cases c with
      | put m0 => exact absurd rfl ((hcs _ (List.mem_cons_self _ _)).1 m0)
      | del => exact absurd rfl (hcs _ (List.mem_cons_self _ _)).2
      | subscribe hd cur =>
          rw [createdTrace]
          have h1 : createdMsgs maxH s (Cmd.subscribe hd cur) = [] := rfl
          rw [h1, List.nil_append]
          have h2 : (step maxH s (Cmd.subscribe hd cur)).lastId = s.lastId := by
            simp only [step]
            split <;> rfl
          have h3 := ih (step maxH s (Cmd.subscribe hd cur)) hrest
          rw [h2] at h3
          exact h3
      | unsubscribe hd =>
          rw [createdTrace]
          have h1 : createdMsgs maxH s (Cmd.unsubscribe hd) = [] := rfl
          rw [h1, List.nil_append]
          have h2 : (step maxH s (Cmd.unsubscribe hd)).lastId = s.lastId := by
            simp only [step]
            split
            · rfl
            · unfold unsubscribeStep
              split <;> rfl
          have h3 := ih (step maxH s (Cmd.unsubscribe hd)) hrest
          rw [h2] at h3
          exact h3
      | publish d =>
          rw [createdTrace]
          by_cases hcr : s.crashed = true
          · have h1 : createdMsgs maxH s (Cmd.publish d) = [] := by
              simp [createdMsgs, hcr]
            have h2 : step maxH s (Cmd.publish d) = s := by
              simp [step, hcr]
            rw [h1, List.nil_append, h2]
            exact ih s hrest
          · have h1 : createdMsgs maxH s (Cmd.publish d) = [(publishStep maxH s d).msg] := by
              simp [createdMsgs, hcr]
            have hmsg : (publishStep maxH s d).msg.id = s.lastId + 1 := by
              unfold publishStep
              split <;> rfl
            have h2 : (step maxH s (Cmd.publish d)).lastId = s.lastId + 1 := by
              simp only [step]
              rw [if_neg hcr]
              unfold publishStep
              split <;> rfl
            obtain ⟨ihb, ihp⟩ := ih (step maxH s (Cmd.publish d)) hrest
            rw [h2] at ihb
            rw [h1, List.singleton_append]
            constructor
            · intro m hm
              rcases List.mem_cons.mp hm with he | hr
              · subst he
                rw [hmsg]
                omega
              · have hb2 := ihb m hr
                omega
            · rw [List.pairwise_cons]
              refine ⟨?_, ihp⟩
              intro b hb
              have hb2 := ihb b hb
              rw [hmsg]
              omega

/-- Demo state of the spec's concrete scenario: history-enabled topic with
`maxHistorySize = 2`, one live subscriber handle 7, after Publish "A" and
Publish "B". -/
def demoB : TopicState :=
  (publishStep 2 (publishStep 2 (subscribeStep (initialTopic true none) 7 0).1 "A").state
    "B").state

/-- Demo history for the compaction examples of the spec. -/
def demo358 : TopicState :=
  { initialTopic true none with history := [Msg.mk 2 "a", Msg.mk 5 "b", Msg.mk 8 "c"],
                                lastId := 8 }

/-- Claim C1: Publish(data) stamps the message with id = lastId + 1 and
updates lastId to it; on a history-enabled topic the message is appended,
the history is evicted from the front until its length is at most
maxHistorySize, the new history is persisted, and maxHistorySize -
len(history) is returned to the producer; on a history-disabled topic no
numeric value is returned; in either case the message is fanned out to
exactly the subscriber handles live at the moment of the publish. -/
theorem publish_correct (maxH : Nat) (s : TopicState) (d : String) :
    (publishStep maxH s d).msg = Msg.mk (s.lastId + 1) d ∧
    (publishStep maxH s d).state.lastId = s.lastId + 1 ∧
    (publishStep maxH s d).delivered = s.channels ∧
    (publishStep maxH s d).state.channels = s.channels ∧
    (s.hasHistory = true →
      (publishStep maxH s d).state.history =
        (s.history ++ [Msg.mk (s.lastId + 1) d]).drop ((s.history.length + 1) - maxH) ∧
      (publishStep maxH s d).state.history.length ≤ maxH ∧
      (publishStep maxH s d).remaining =
        some ((maxH : Int) - ((publishStep maxH s d).state.history.length : Int)) ∧
      (publishStep maxH s d).state.stored = some ((publishStep maxH s d).state.history)) ∧
    (s.hasHistory = false →
      (publishStep maxH s d).remaining = none ∧
      (publishStep maxH s d).state.history = s.history ∧
      (publishStep maxH s d).state.stored = s.stored) := by
  by_cases hh : s.hasHistory = true
  · rw [publishStep_pos maxH s d hh]
    refine ⟨rfl, rfl, rfl, rfl, fun _ => ⟨?_, evictFront_length _ _, rfl, rfl⟩, fun hcon => ?_⟩
    · rw [evictFront_eq_drop]
      simp
    · rw [hh] at hcon
      cases hcon
  · have hh2 : s.hasHistory = false := by
      revert hh
      cases s.hasHistory <;> simp
    rw [publishStep_neg maxH s d hh2]
    refine ⟨rfl, rfl, rfl, rfl, fun hcon => ?_, fun _ => ⟨rfl, rfl, rfl⟩⟩
    rw [hh2] at hcon
    cases hcon

/-- Witness for C1, the spec's scenario: publishing "C" on the
maxHistorySize-2 topic holding [1:A, 2:B] evicts 1:A and reports no
remaining capacity. -/
theorem publish_correct_witness :
    (publishStep 2 demoB "C").msg = Msg.mk (demoB.lastId + 1) "C" ∧
    (publishStep 2 demoB "C").state.history = [Msg.mk 2 "B", Msg.mk 3 "C"] ∧
    (publishStep 2 demoB "C").remaining = some 0 ∧
    (publishStep 2 demoB "C").delivered = {7} := by
  have h := publish_correct 2 demoB "C"
  exact ⟨h.1, by decide, by decide, by decide⟩

/-- Counterexample to C2 as stated: a topic whose retained history was
injected by a Put with caller-supplied id 0 (admitted at the public
interface via the Last-Event-ID header); Subscribe(0) does not replay the
entire retained history, because the replay filter `id > 0` excludes the
id-0 message. -/
theorem subscribe_full_replay_cex :
    (subscribeStep (putStep (initialTopic true none) (Msg.mk 0 "x")) 1 0).2 ≠
      (putStep (initialTopic true none) (Msg.mk 0 "x")).history := by
  decide

/-- Claim C2 (amended): Subscribe(lastSeenId) hands the new subscriber
exactly the retained messages with id > lastSeenId, in increasing id order
and without duplicates, leaves the history unchanged, and adds the handle
to the live set in the same atomic step; under the topic invariants every
message published afterwards has a strictly larger id than every replayed
message; lastSeenId = 0 replays the entire retained history provided every
retained id is positive (an id ≤ 0 injected by Put is excluded). -/
theorem subscribe_correct (maxH : Nat) (s : TopicState) (hd : Nat) (cursor : Int)
    (d : String) (hs : Sorted s.history) (hb : ∀ m ∈ s.history, m.id ≤ s.lastId) :
    (∀ m, m ∈ (subscribeStep s hd cursor).2 ↔ m ∈ s.history ∧ cursor < m.id) ∧
    Sorted (subscribeStep s hd cursor).2 ∧
    (subscribeStep s hd cursor).2.Nodup ∧
    (subscribeStep s hd cursor).1.channels = insert hd s.channels ∧
    (subscribeStep s hd cursor).1.history = s.history ∧
    (∀ m ∈ (subscribeStep s hd cursor).2,
      m.id < (publishStep maxH (subscribeStep s hd cursor).1 d).msg.id) ∧
    (cursor = 0 → (∀ m ∈ s.history, 0 < m.id) →
      (subscribeStep s hd cursor).2 = s.history) := by
  have hfil : (subscribeStep s hd cursor).2 =
      s.history.filter (fun m => decide (cursor < m.id)) := rfl
  refine ⟨?_, ?_, ?_, rfl, rfl, ?_, ?_⟩
  · intro m
    rw [hfil, List.mem_filter, decide_eq_true_eq]
  · exact hs.filter _
  · exact (hs.filter _).imp (fun hab => ne_of_apply_ne Msg.id (ne_of_lt hab))
  · intro m hm
    rw [publishStep_msg]
    have hmem : m ∈ s.history := (List.mem_filter.mp (hfil ▸ hm)).1
    have := hb m hmem
    show m.id < s.lastId + 1
    omega
  · intro hc hpos
    rw [hfil, List.filter_eq_self]
    intro a ha
    rw [decide_eq_true_eq, hc]
    exact hpos a ha

/-- Witness for C2 on the scenario topic [1:A, 2:B]: Subscribe with cursor
1 joins the live set and replays only the messages newer than 1. -/
theorem subscribe_correct_witness :
    Sorted demoB.history ∧
    (subscribeStep demoB 9 1).1.channels = insert 9 demoB.channels ∧
    ((subscribeStep demoB 9 1).2 = [Msg.mk 2 "B"]) := by
  refine ⟨by decide, ?_, by decide⟩
  exact (subscribe_correct 2 demoB 9 1 "Z" (by decide) (by decide)).2.2.2.1

/-- Claim C3: Compact(newId, data) is a full-state no-op exactly when the
history is nonempty and newId is below the oldest retained id; otherwise
the history becomes the injected message followed in order by the retained
messages with id > newId, lastId becomes max(lastId, newId), the new
history is persisted, and the live subscriber set is untouched. -/
theorem compact_correct (s : TopicState) (m : Msg) :
    (putStale s m = true ↔ ∃ first ∈ s.history.head?, m.id < first.id) ∧
    (putStale s m = true → putStep s m = s) ∧
    (putStale s m = false →
      (putStep s m).history = m :: s.history.filter (fun x => m.id < x.id) ∧
      (putStep s m).lastId = max s.lastId m.id ∧
      (putStep s m).channels = s.channels ∧
      (putStep s m).stored = some ((putStep s m).history)) := by
  refine ⟨?_, ?_, ?_⟩
  · rcases hhist : s.history with _ | ⟨first, rest⟩
    · simp [putStale, hhist]
    · simp [putStale, hhist]
  · intro hst
    unfold putStep
    rw [if_pos hst]
  · intro hst
    unfold putStep
    rw [if_neg (by rw [hst]; exact Bool.false_ne_true)]
    refine ⟨rfl, ?_, rfl, rfl⟩
    show (if s.lastId < m.id then m.id else s.lastId) = max s.lastId m.id
    rcases le_or_lt m.id s.lastId with hle | hlt
    · rw [if_neg (not_lt.mpr hle), max_eq_left hle]
    · rw [if_pos hlt, max_eq_right (le_of_lt hlt)]

/-- Witness for C3 at the spec's compaction examples on history
[{2,a},{5,b},{8,c}]: Compact(1,x) is a no-op, Compact(5,x) yields
[{5,x},{8,c}]. -/
theorem compact_correct_witness :
    putStep demo358 (Msg.mk 1 "x") = demo358 ∧
    (putStep demo358 (Msg.mk 5 "x")).history = [Msg.mk 5 "x", Msg.mk 8 "c"] ∧
    (putStep demo358 (Msg.mk 5 "x")).lastId = 8 := by
  refine ⟨(compact_correct demo358 (Msg.mk 1 "x")).2.1 (by decide), ?_, by decide⟩
  have h := ((compact_correct demo358 (Msg.mk 5 "x")).2.2 (by decide)).1
  rw [h]
  decide

/-- Claim C4: starting from the empty history, after any command sequence
the history is strictly increasing by id and holds at most maxHistorySize
entries; for sequences consisting only of Publishes, consecutive retained
ids differ by exactly one. -/
theorem history_invariant (maxH : Nat) (hm : 1 ≤ maxH) (hh : Bool) (cs : List Cmd) :
    Sorted (run maxH (initialTopic hh none) cs).history ∧
    (run maxH (initialTopic hh none) cs).history.length ≤ maxH ∧
    ((∀ c ∈ cs, ∃ d, c = Cmd.publish d) →
      (run maxH (initialTopic hh none) cs).history.Chain' (fun a b => b.id = a.id + 1)) := by
  obtain ⟨h1, h2, _⟩ := histAux_run maxH hm (initialTopic hh none) cs (histAux_initial maxH hh)
  refine ⟨h1, h2, ?_⟩
  intro hpub
  exact (pubInv_run maxH hm _ cs hpub (pubInv_initial hh)).1

/-- Witness for C4: three publishes on a maxHistorySize-2 topic keep the
history sorted, bounded and consecutive. -/
theorem history_invariant_witness :
    Sorted (run 2 (initialTopic true none)
      [Cmd.publish "A", Cmd.publish "B", Cmd.publish "C"]).history ∧
    (run 2 (initialTopic true none)
      [Cmd.publish "A", Cmd.publish "B", Cmd.publish "C"]).history.Chain'
        (fun a b => b.id = a.id + 1) := by
  have h := history_invariant 2 (by decide) true
    [Cmd.publish "A", Cmd.publish "B", Cmd.publish "C"]
  refine ⟨h.1, h.2.2 ?_⟩
  intro c hc
  fin_cases hc
  · exact ⟨"A", rfl⟩
  · exact ⟨"B", rfl⟩
  · exact ⟨"C", rfl⟩

/-- Counterexample to C5 as stated: a history-enabled topic freshly
constructed for a PUT request reloads the persisted history [{2,a}] and
has zero subscribers; the stale Compact(1,x) is processed, but the `continue`
in the put arm skips the cleanup check, so the topic remains in the
registry with zero subscribers and no in-flight commands. -/
theorem idle_check_cex :
    (loopStep 100 (LoopState.mk (startTopic true (some [Msg.mk 2 "a"])) true)
      (Cmd.put (Msg.mk 1 "x"))).inRegistry = true ∧
    (loopStep 100 (LoopState.mk (startTopic true (some [Msg.mk 2 "a"])) true)
      (Cmd.put (Msg.mk 1 "x"))).topic.channels = ∅ := by
  decide

/-- Claim C5 (amended): after processing any command that is neither a
stale Compact (whose `continue` skips the check) nor an Unsubscribe that
crashes on a double close, the actor evaluates the idle check: the topic
stays in the registry exactly when its subscriber set is nonempty, and is
deregistered the moment that set is observed empty. -/
theorem idle_check_correct (maxH : Nat) (ls : LoopState) (c : Cmd)
    (hreg : ls.inRegistry = true)
    (hskip : skipsCleanup ls.topic c = false)
    (hcr : (step maxH ls.topic c).crashed = false) :
    (loopStep maxH ls c).topic = step maxH ls.topic c ∧
    ((loopStep maxH ls c).inRegistry = true ↔
      (step maxH ls.topic c).channels ≠ ∅) := by
  unfold loopStep
  rw [if_neg (show ¬ (ls.inRegistry = false) by rw [hreg]; decide)]
  rw [if_neg (by rw [hcr]; exact Bool.false_ne_true)]
  rw [if_neg (by rw [hskip]; exact Bool.false_ne_true)]
  by_cases hch : (step maxH ls.topic c).channels = ∅
  · rw [if_pos hch]
    refine ⟨rfl, ?_⟩
    constructor
    · intro hcon
      cases hcon
    · intro hcon
      exact absurd hch hcon
  · rw [if_neg hch]
    exact ⟨rfl, ⟨fun _ => hch, fun _ => rfl⟩⟩

/-- Witness for C5 on a non-stale Compact against a fresh topic with no
subscribers: the cleanup check runs and deregisters the topic. -/
theorem idle_check_witness :
    (loopStep 100 (LoopState.mk (startTopic true none) true)
        (Cmd.put (Msg.mk 5 "x"))).topic =
      step 100 (startTopic true none) (Cmd.put (Msg.mk 5 "x")) :=
  (idle_check_correct 100 (LoopState.mk (startTopic true none) true)
    (Cmd.put (Msg.mk 5 "x")) (by decide) (by decide) (by decide)).1

/-- Counterexample to C6 as stated: ClearHistory resets lastId from 1 back
to 0, so lastId is not monotone across the full command set and drops below
the id of the message already published. -/
theorem lastId_monotone_cex :
    ¬ ((run 100 (initialTopic true none) [Cmd.publish "a"]).lastId ≤
       (run 100 (initialTopic true none) [Cmd.publish "a", Cmd.del]).lastId) := by
  decide

/-- Claim C6 (amended): lastId never decreases across Subscribe,
Unsubscribe, Publish and Compact — ClearHistory, however, resets it to 0 —
and along any ClearHistory-free command sequence from a fresh topic, lastId
is at least the id of every message published or injected so far. -/
theorem lastId_correct (maxH : Nat) (s : TopicState) (c : Cmd) (hh : Bool)
    (cs : List Cmd) (hc : c ≠ Cmd.del) (hcs : ∀ c2 ∈ cs, c2 ≠ Cmd.del) :
    s.lastId ≤ (step maxH s c).lastId ∧
    (∀ m ∈ createdTrace maxH (initialTopic hh none) cs,
      m.id ≤ (run maxH (initialTopic hh none) cs).lastId) :=
  ⟨lastId_mono_step maxH s c hc, createdTrace_le_run maxH _ cs hcs⟩

/-- Witness for C6 at a concrete publish on the scenario topic and a
del-free trace of one Compact. -/
theorem lastId_correct_witness :
    demoB.lastId ≤ (step 2 demoB (Cmd.publish "C")).lastId :=
  (lastId_correct 2 demoB (Cmd.publish "C") true [Cmd.put (Msg.mk 4 "x")]
    (by decide) (by decide)).1

/-- Claim C7: ClearHistory empties the history, resets lastId to 0 and
deletes the persisted file while leaving the live subscriber set unchanged;
an immediate Subscribe(0) replays nothing and the next Publish assigns
id 1. -/
theorem clear_history_correct (maxH : Nat) (s : TopicState) (hd : Nat) (d : String) :
    (delStep s).history = [] ∧
    (delStep s).lastId = 0 ∧
    (delStep s).stored = none ∧
    (delStep s).channels = s.channels ∧
    (subscribeStep (delStep s) hd 0).2 = [] ∧
    (publishStep maxH (delStep s) d).msg.id = 1 := by
  refine ⟨rfl, rfl, rfl, rfl, rfl, ?_⟩
  rw [publishStep_msg]
  rfl

/-- Counterexample to C8 as stated: a second Unsubscribe for the same
handle reaches `close` on an already-closed channel — an illegal
close-after-close (Go run-time panic), recorded as a crash. -/
theorem unsubscribe_double_close_cex :
    (run 100 (initialTopic false none)
      [Cmd.subscribe 1 0, Cmd.unsubscribe 1, Cmd.unsubscribe 1]).crashed = true := by
  decide

/-- Claim C8 (amended): Unsubscribe removes the handle from the live set
and closes it; it is NOT idempotent-safe: processing an Unsubscribe for an
already-closed handle performs an illegal close of an already-closed
handle. -/
theorem unsubscribe_correct (s : TopicState) (hd : Nat) :
    (hd ∉ s.closed →
      (unsubscribeStep s hd).channels = s.channels.erase hd ∧
      (unsubscribeStep s hd).closed = insert hd s.closed ∧
      (unsubscribeStep s hd).crashed = s.crashed) ∧
    (hd ∈ s.closed → unsubscribeStep s hd = { s with crashed := true }) := by
  constructor
  · intro hmem
    unfold unsubscribeStep
    rw [if_neg hmem]
    exact ⟨rfl, rfl, rfl⟩
  · intro hmem
    unfold unsubscribeStep
    rw [if_pos hmem]

/-- Witness for C8: the first Unsubscribe of handle 1 removes it from the
live set without crashing. -/
theorem unsubscribe_correct_witness :
    (unsubscribeStep (subscribeStep (initialTopic false none) 1 0).1 1).channels =
      ((subscribeStep (initialTopic false none) 1 0).1.channels.erase 1) ∧
    (unsubscribeStep (subscribeStep (initialTopic false none) 1 0).1 1).crashed = false := by
  have h := (unsubscribe_correct (subscribeStep (initialTopic false none) 1 0).1 1).1
    (by decide)
  exact ⟨h.1, h.2.2⟩

/-- Counterexample to C9 as stated: a Put with caller-supplied id 0
(admitted at the public interface) injects a message whose id is below 1. -/
theorem message_id_cex :
    ¬ (∀ m ∈ createdTrace 100 (initialTopic true none) [Cmd.put (Msg.mk 0 "x")],
      1 ≤ m.id) := by
  decide

/-- Claim C9 (amended): along any command sequence from a fresh topic that
contains no Compact/Put (whose caller-supplied id may be ≤ 0 or collide)
and no ClearHistory (which lets Publish reuse ids), every created message
has id ≥ 1 and all created ids are pairwise distinct. -/
theorem message_id_correct (maxH : Nat) (hh : Bool) (cs : List Cmd)
    (hcs : ∀ c ∈ cs, (∀ m, c ≠ Cmd.put m) ∧ c ≠ Cmd.del) :
    (∀ m ∈ createdTrace maxH (initialTopic hh none) cs, 1 ≤ m.id) ∧
    (createdTrace maxH (initialTopic hh none) cs).Pairwise
      (fun a b => a.id ≠ b.id) := by
  obtain ⟨hb, hp⟩ := createdTrace_bounds maxH (initialTopic hh none) cs hcs
  refine ⟨?_, hp.imp (fun hab => ne_of_lt hab)⟩
  intro m hm
  have h1 := hb m hm
  have h0 : (initialTopic hh none).lastId = 0 := rfl
  rw [h0] at h1
  omega

/-- Witness for C9 on a Put-free, ClearHistory-free trace: the two
published messages carry distinct ids. -/
theorem message_id_correct_witness :
    (createdTrace 100 (initialTopic true none)
      [Cmd.subscribe 1 0, Cmd.publish "A", Cmd.publish "B"]).Pairwise
        (fun a b => a.id ≠ b.id) :=
  (message_id_correct 100 true [Cmd.subscribe 1 0, Cmd.publish "A", Cmd.publish "B"]
    (by
      intro c hc
      fin_cases hc
      · exact ⟨fun m hcon => Cmd.noConfusion hcon, fun hcon => Cmd.noConfusion hcon⟩
      · exact ⟨fun m hcon => Cmd.noConfusion hcon, fun hcon => Cmd.noConfusion hcon⟩
      · exact ⟨fun m hcon => Cmd.noConfusion hcon, fun hcon => Cmd.noConfusion hcon⟩)).2

end Via
